import Mathlib

/-!
Verification of the reconciliation-and-faceted-analytics engine of the
top50_analyzer repository.

The development shallowly embeds two source layers:

* the merge / reconciliation page (`src/unnamed/part_011`): the five-level
  signal scale `signalLevel`, the pairwise classifier `calculateMatchStatus`,
  the confidence mapping `calculateConfidence`, the map-based merge
  `combinedStocks` of the vision list with the API list, and the summary
  `statsV1`;
* the current faceted page (`src/frontend/src/pages/CombinedAnalysis.tsx`):
  the three facet predicates, the filtered and rank-sorted result list
  `filteredStocks`, and the marginal facet counters `matchCounts`,
  `signalCounts` and the market counters.

JavaScript `Map` objects are modelled as association lists in insertion
order (`mapSet` keeps the position of an existing key, as `Map.set` does);
optional chains such as `api_data?.ranking?.volume_rank` are flattened to a
single `Option Nat`; floating point confidence values are modelled as
rationals; `Array.prototype.sort` (stable since ES2019, and its comparator
`rankA - rankB` yields `NaN`, treated as `0`, when both ranks are missing)
is modelled as a stable insertion sort on the same key order.
-/

/-- The five raw signal labels of `SignalType` in `services/types.ts`
('적극매수' | '매수' | '중립' | '매도' | '적극매도'), as an enumeration. -/
inductive SignalType : Type
  | strongBuy
  | buy
  | neutral
  | sell
  | strongSell
deriving DecidableEq, Fintype, Repr

/-- The six agreement classifications.  The type in `part_011` has the first
five values only; the current page additionally displays `no_data`. -/
inductive MatchStatus : Type
  | exactMatch
  | partialMatch
  | mismatch
  | visionOnly
  | apiOnly
  | noData
deriving DecidableEq, Fintype, Repr

/-- The two exchanges plus the unknown marker, `'KOSPI' | 'KOSDAQ' | 'UNKNOWN'`. -/
inductive Market : Type
  | KOSPI
  | KOSDAQ
  | UNKNOWN
deriving DecidableEq, Fintype, Repr

/-- The single-select market filter, `MarketType = 'all' | 'kospi' | 'kosdaq'`. -/
inductive MarketFilter : Type
  | all
  | kospi
  | kosdaq
deriving DecidableEq, Fintype, Repr

/-- Score table `signalLevel` of `part_011`: the ordinal score of each signal label. -/
def signalLevel : SignalType → Int
  | .strongBuy => 2
  | .buy => 1
  | .neutral => 0
  | .sell => -1
  | .strongSell => -2

/-- Function `calculateMatchStatus` of `part_011` lines 38-48: absent inputs are the
`none` cases (the JS falsiness tests on the optional arguments), then string
equality, then the absolute level difference with `diff <= 1` as `partial`. -/
def calculateMatchStatus (visionSignal apiSignal : Option SignalType) : MatchStatus :=
  match visionSignal, apiSignal with
  | none, none => .mismatch
  | none, some _ => .apiOnly
  | some _, none => .visionOnly
  | some v, some a =>
    if v = a then .exactMatch
    else if (signalLevel v - signalLevel a).natAbs ≤ 1 then .partialMatch
    else .mismatch

/-- Function `calculateConfidence` of `part_011` lines 51-60; the `noData` case is the
`default: return 0` branch of the switch. -/
def calculateConfidence : MatchStatus → ℚ
  | .exactMatch => 1
  | .partialMatch => 7/10
  | .visionOnly => 1/2
  | .apiOnly => 1/2
  | .mismatch => 3/10
  | .noData => 0

/-- A vision record (`StockResult` of `services/types.ts`, the fields the
merge reads). -/
structure StockResult : Type where
  code : String
  name : String
  signal : SignalType
  reason : String
deriving DecidableEq, Repr

/-- An API record (`KISStockData`, the fields the merge reads; the nested
`ranking.volume_rank` chain is flattened to one optional value). -/
structure KISStockData : Type where
  code : String
  name : String
  market : Market
  volumeRank : Option Nat := none
deriving DecidableEq, Repr

/-- An API analysis record (`KISAnalysisResult`, the fields the merge reads). -/
structure KISAnalysisResult : Type where
  code : String
  signal : SignalType
  reason : String
deriving DecidableEq, Repr

/-- The merged per-stock record of `part_011` (`CombinedStock` there). -/
structure CombinedStockV1 : Type where
  code : String
  name : String
  market : Market
  visionSignal : Option SignalType := none
  visionReason : Option String := none
  apiSignal : Option SignalType := none
  apiReason : Option String := none
  apiData : Option KISStockData := none
  matchStatus : MatchStatus
  confidenceScore : ℚ
deriving DecidableEq, Repr

/-- Model of `Map.set`: replace the value of an existing key in place, else append. -/
def mapSet {α : Type} (k : String) (v : α) : List (String × α) → List (String × α)
  | [] => [(k, v)]
  | (k', v') :: rest => if k' = k then (k', v) :: rest else (k', v') :: mapSet k v rest

/-- Model of `Map.get`: the value stored under a key, if any. -/
def mapGet {α : Type} (k : String) : List (String × α) → Option α
  | [] => none
  | (k', v') :: rest => if k' = k then some v' else mapGet k rest

/-- The market heuristic of `part_011` line 273: KOSDAQ exactly when the code
starts with '3' or '4', else KOSPI. -/
def marketRule (code : String) : Market :=
  if code.startsWith "3" || code.startsWith "4" then .KOSDAQ else .KOSPI

/-- The entry `combinedStocks` builds for a vision record (`part_011` lines
272-283). -/
def visionEntry (s : StockResult) : CombinedStockV1 :=
  { code := s.code
    name := s.name
    market := marketRule s.code
    visionSignal := some s.signal
    visionReason := some s.reason
    matchStatus := .visionOnly
    confidenceScore := 1/2 }

/-- The in-place merge of an API record into an existing vision entry
(`part_011` lines 297-303). -/
def mergeApi (existing : CombinedStockV1) (stock : KISStockData)
    (analysis : Option KISAnalysisResult) : CombinedStockV1 :=
  let apiSignal := analysis.map (fun a => a.signal)
  let status := calculateMatchStatus existing.visionSignal apiSignal
  { existing with
    apiData := some stock
    apiSignal := apiSignal
    apiReason := analysis.map (fun a => a.reason)
    matchStatus := status
    confidenceScore := calculateConfidence status }

/-- The fresh entry for an API record with no vision entry (`part_011` lines
305-315): the status ternary has two identical arms (`'api-only' : 'api-only'`)
while the confidence ternary distinguishes them (`0.5 : 0`). -/
def apiOnlyEntry (stock : KISStockData) (analysis : Option KISAnalysisResult) :
    CombinedStockV1 :=
  { code := stock.code
    name := stock.name
    market := stock.market
    apiData := some stock
    apiSignal := analysis.map (fun a => a.signal)
    apiReason := analysis.map (fun a => a.reason)
    matchStatus := .apiOnly
    confidenceScore := if (analysis.map (fun a => a.signal)).isSome then 1/2 else 0 }

/-- One step of the API fold of `combinedStocks` (`part_011` lines 293-317). -/
def addKisStock (amap : List (String × KISAnalysisResult))
    (m : List (String × CombinedStockV1)) (stock : KISStockData) :
    List (String × CombinedStockV1) :=
  let analysis := mapGet stock.code amap
  match mapGet stock.code m with
  | some existing => mapSet stock.code (mergeApi existing stock analysis) m
  | none => mapSet stock.code (apiOnlyEntry stock analysis) m

/-- Function `combinedStocks` of `part_011` lines 267-321: vision records first, then
the API records are merged in through the code-keyed map; the output is the
map's values in insertion order. -/
def combinedStocks (visionResults : List StockResult) (kisStocks : List KISStockData)
    (kisAnalysis : List KISAnalysisResult) : List CombinedStockV1 :=
  let m0 := visionResults.foldl (fun m s => mapSet s.code (visionEntry s) m) []
  let amap := kisAnalysis.foldl (fun m r => mapSet r.code r m) []
  let m1 := kisStocks.foldl (addKisStock amap) m0
  m1.map (fun p => p.2)

/-- The summary record of `stats` in `part_011` lines 342-354. -/
structure StatsV1 : Type where
  total : Nat
  matched : Nat
  partialCnt : Nat
  mismatched : Nat
  visionOnly : Nat
  apiOnly : Nat
  avgConfidence : ℚ
deriving DecidableEq, Repr

/-- Computation `stats` of `part_011` lines 342-354: per-status counts by filtering, and
the average confidence guarded against an empty collection. -/
def statsV1 (stocks : List CombinedStockV1) : StatsV1 :=
  { total := stocks.length
    matched := (stocks.filter (fun s => s.matchStatus = .exactMatch)).length
    partialCnt := (stocks.filter (fun s => s.matchStatus = .partialMatch)).length
    mismatched := (stocks.filter (fun s => s.matchStatus = .mismatch)).length
    visionOnly := (stocks.filter (fun s => s.matchStatus = .visionOnly)).length
    apiOnly := (stocks.filter (fun s => s.matchStatus = .apiOnly)).length
    avgConfidence :=
      if 0 < stocks.length then
        (stocks.foldl (fun sum s => sum + s.confidenceScore) 0) / (stocks.length : ℚ)
      else 0 }

/-- The decision list of spec §4.2 amended at its first rule: with no record
from either source the code classifies `mismatch` (it has no `no_data`
outcome); the remaining rules are the spec's, keyed on the ordinal distance. -/
def amendedDecisionList (visionSignal apiSignal : Option SignalType) : MatchStatus :=
  match visionSignal, apiSignal with
  | none, none => .mismatch
  | none, some _ => .apiOnly
  | some _, none => .visionOnly
  | some v, some a =>
    if (signalLevel v - signalLevel a).natAbs = 0 then .exactMatch
    else if (signalLevel v - signalLevel a).natAbs = 1 then .partialMatch
    else .mismatch

/-- A concrete API record used in counterexamples and witnesses. -/
def kisSample : KISStockData :=
  { code := "005930", name := "SamsungElectronics", market := .KOSPI }

/-- The merged per-stock record the current page consumes (`CombinedStock` of
`services/types.ts` as `CombinedAnalysis.tsx` reads it; the optional chain
`api_data?.ranking?.volume_rank` is flattened to `volume_rank`). -/
structure CombinedStock : Type where
  code : String
  name : String
  market : Market
  vision_signal : Option SignalType := none
  api_signal : Option SignalType := none
  match_status : MatchStatus
  confidence : ℚ
  volume_rank : Option Nat := none
deriving DecidableEq, Repr

/-- The caller-owned filter selections: the single-select market filter and
the two multi-select sets (an empty set selects everything). -/
structure FilterState : Type where
  market : MarketFilter
  matchFilters : List MatchStatus
  signalFilters : List SignalType
deriving DecidableEq, Repr

/-- The lower-case rendering `s.market.toLowerCase()` used by the market
filter comparison. -/
def marketLower : Market → String
  | .KOSPI => "kospi"
  | .KOSDAQ => "kosdaq"
  | .UNKNOWN => "unknown"

/-- The market filter value as the string it is compared against. -/
def marketFilterStr : MarketFilter → String
  | .all => "all"
  | .kospi => "kospi"
  | .kosdaq => "kosdaq"

/-- The market facet test `s.market.toLowerCase() === marketFilter`
(`CombinedAnalysis.tsx` line 331), applied only when the filter is not `all`. -/
def marketPred (f : MarketFilter) (s : CombinedStock) : Bool :=
  marketLower s.market = marketFilterStr f

/-- The match-status facet test `matchFilters.has(s.match_status)` (line 336). -/
def hasMatch (filters : List MatchStatus) (s : CombinedStock) : Bool :=
  filters.contains s.match_status

/-- The signal facet test (lines 342-346): the vision signal or the API
signal belongs to the selected set; a missing signal never matches. -/
def hasSignal (filters : List SignalType) (s : CombinedStock) : Bool :=
  (match s.vision_signal with
   | some v => filters.contains v
   | none => false) ||
  (match s.api_signal with
   | some a => filters.contains a
   | none => false)

/-- The market filter stage (lines 330-332): skipped when the filter is `all`. -/
def applyMarket (f : MarketFilter) (stocks : List CombinedStock) : List CombinedStock :=
  if f = .all then stocks else stocks.filter (marketPred f)

/-- The match-status filter stage (lines 335-337): skipped for an empty set. -/
def applyMatch (filters : List MatchStatus) (stocks : List CombinedStock) :
    List CombinedStock :=
  if filters.isEmpty then stocks else stocks.filter (hasMatch filters)

/-- The signal filter stage (lines 341-347): skipped for an empty set. -/
def applySignal (filters : List SignalType) (stocks : List CombinedStock) :
    List CombinedStock :=
  if filters.isEmpty then stocks else stocks.filter (hasSignal filters)

/-- The order the sort comparator `rankA - rankB` induces on the optional
volume ranks, a missing rank standing for `Infinity` (two missing ranks
compare as a tie: the comparator yields `NaN`, which the sort treats as `0`). -/
def rankLe (a b : Option Nat) : Bool :=
  match a, b with
  | some x, some y => x ≤ y
  | some _, none => true
  | none, some _ => false
  | none, none => true

/-- One insertion step of the stable sort by volume rank. -/
def sortInsert (x : CombinedStock) : List CombinedStock → List CombinedStock
  | [] => [x]
  | y :: ys =>
    if rankLe x.volume_rank y.volume_rank then x :: y :: ys else y :: sortInsert x ys

/-- The stable sort by volume rank modelling `stocks.sort((a, b) => rankA - rankB)`
(lines 350-354). -/
def sortByRank : List CombinedStock → List CombinedStock
  | [] => []
  | x :: xs => sortInsert x (sortByRank xs)

/-- Computation `filteredStocks` of `CombinedAnalysis.tsx` lines 324-355: the three filter
stages in program order, then the rank sort. -/
def filteredStocks (fs : FilterState) (stocks : List CombinedStock) :
    List CombinedStock :=
  sortByRank (applySignal fs.signalFilters (applyMatch fs.matchFilters
    (applyMarket fs.market stocks)))

/-- The base list for the match-status facet counts (lines 378-383): market
and signal filters applied, the match-status filter not. -/
def forMatchList (fs : FilterState) (stocks : List CombinedStock) :
    List CombinedStock :=
  let afterMarket := applyMarket fs.market stocks
  if fs.signalFilters.isEmpty then afterMarket
  else afterMarket.filter (hasSignal fs.signalFilters)

/-- Counter `matchCounts` (lines 384-385): the counting loop `mc[s.match_status]++`
read off at one status. -/
def matchCounts (fs : FilterState) (stocks : List CombinedStock)
    (st : MatchStatus) : Nat :=
  (forMatchList fs stocks).foldl (fun n s => if s.match_status = st then n + 1 else n) 0

/-- The base list for the signal facet counts (line 388): market and
match-status filters applied, the signal filter not. -/
def forSignalList (fs : FilterState) (stocks : List CombinedStock) :
    List CombinedStock :=
  let afterMarket := applyMarket fs.market stocks
  if fs.matchFilters.isEmpty then afterMarket
  else afterMarket.filter (hasMatch fs.matchFilters)

/-- Counter `signalCounts` (lines 389-393): each stock increments the bucket of its
vision signal and the bucket of its API signal independently. -/
def signalCounts (fs : FilterState) (stocks : List CombinedStock)
    (sig : SignalType) : Nat :=
  (forSignalList fs stocks).foldl
    (fun n s =>
      let n1 := if s.vision_signal = some sig then n + 1 else n
      if s.api_signal = some sig then n1 + 1 else n1) 0

/-- The base list for the market facet counts (lines 396-398): match-status
then signal filters applied, the market filter not. -/
def forMarketList (fs : FilterState) (stocks : List CombinedStock) :
    List CombinedStock :=
  applySignal fs.signalFilters (applyMatch fs.matchFilters stocks)

/-- Counter `marketCounts.all` (line 402). -/
def marketCountsAll (fs : FilterState) (stocks : List CombinedStock) : Nat :=
  (forMarketList fs stocks).length

/-- Counter `marketCounts.kospi` (line 403). -/
def marketCountsKospi (fs : FilterState) (stocks : List CombinedStock) : Nat :=
  ((forMarketList fs stocks).filter (fun s => s.market = .KOSPI)).length

/-- Counter `marketCounts.kosdaq` (line 404). -/
def marketCountsKosdaq (fs : FilterState) (stocks : List CombinedStock) : Nat :=
  ((forMarketList fs stocks).filter (fun s => s.market = .KOSDAQ)).length

/-- The filter state with nothing selected. -/
def emptyFilter : FilterState :=
  { market := .all, matchFilters := [], signalFilters := [] }

/-- The market facet's predicate as the spec states it: exact match unless
the selection is `all`. -/
def marketOk (fs : FilterState) (s : CombinedStock) : Prop :=
  fs.market = .all ∨ marketLower s.market = marketFilterStr fs.market

/-- The match-status facet's predicate as the spec states it: membership in
the selected set, or anything when the set is empty. -/
def matchOk (fs : FilterState) (s : CombinedStock) : Prop :=
  fs.matchFilters = [] ∨ s.match_status ∈ fs.matchFilters

/-- The signal facet's predicate as the spec states it: the vision signal or
the API signal belongs to the selected set, or anything when the set is empty. -/
def signalOk (fs : FilterState) (s : CombinedStock) : Prop :=
  fs.signalFilters = [] ∨
    (∃ v, s.vision_signal = some v ∧ v ∈ fs.signalFilters) ∨
    (∃ a, s.api_signal = some a ∧ a ∈ fs.signalFilters)

/-- Boolean form of the market facet predicate. -/
def marketOkB (fs : FilterState) (s : CombinedStock) : Bool :=
  if fs.market = .all then true else marketPred fs.market s

/-- Boolean form of the match-status facet predicate. -/
def matchOkB (fs : FilterState) (s : CombinedStock) : Bool :=
  fs.matchFilters.isEmpty || hasMatch fs.matchFilters s

/-- Boolean form of the signal facet predicate. -/
def signalOkB (fs : FilterState) (s : CombinedStock) : Bool :=
  fs.signalFilters.isEmpty || hasSignal fs.signalFilters s

/-- How often one stock's two source signals equal a given level. -/
def signalOcc (s : CombinedStock) (sig : SignalType) : Nat :=
  (if s.vision_signal = some sig then 1 else 0) +
    (if s.api_signal = some sig then 1 else 0)

lemma applyMarket_eq_filter (fs : FilterState) (stocks : List CombinedStock) :
    applyMarket fs.market stocks = stocks.filter (fun s => marketOkB fs s) := by
  by_cases h : fs.market = .all
  · simp [applyMarket, marketOkB, h]
  · simp [applyMarket, marketOkB, h]

lemma applyMatch_eq_filter (fs : FilterState) (stocks : List CombinedStock) :
    applyMatch fs.matchFilters stocks = stocks.filter (fun s => matchOkB fs s) := by
  by_cases h : fs.matchFilters.isEmpty
  · simp [applyMatch, matchOkB, h]
  · simp [applyMatch, matchOkB, h]

lemma applySignal_eq_filter (fs : FilterState) (stocks : List CombinedStock) :
    applySignal fs.signalFilters stocks = stocks.filter (fun s => signalOkB fs s) := by
  by_cases h : fs.signalFilters.isEmpty
  · simp [applySignal, signalOkB, h]
  · simp [applySignal, signalOkB, h]

lemma forMatchList_eq_filter (fs : FilterState) (stocks : List CombinedStock) :
    forMatchList fs stocks =
      stocks.filter (fun s => marketOkB fs s && signalOkB fs s) := by
  unfold forMatchList
  by_cases h : fs.signalFilters.isEmpty
  · simp only [h, if_pos trivial, applyMarket_eq_filter]
    refine (List.filter_congr ?_).symm
    intro s _
    simp [signalOkB, h]
  · simp only [h]
    rw [if_neg (by simp [h]), applyMarket_eq_filter, List.filter_filter]
    refine List.filter_congr ?_
    intro s _
    simp [signalOkB, h, hasSignal, Bool.and_comm]

lemma forSignalList_eq_filter (fs : FilterState) (stocks : List CombinedStock) :
    forSignalList fs stocks =
      stocks.filter (fun s => marketOkB fs s && matchOkB fs s) := by
  unfold forSignalList
  by_cases h : fs.matchFilters.isEmpty
  · simp only [h, if_pos trivial, applyMarket_eq_filter]
    refine (List.filter_congr ?_).symm
    intro s _
    simp [matchOkB, h]
  · simp only [h]
    rw [if_neg (by simp [h]), applyMarket_eq_filter, List.filter_filter]
    refine List.filter_congr ?_
    intro s _
    simp [matchOkB, h, Bool.and_comm]

lemma forMarketList_eq_filter (fs : FilterState) (stocks : List CombinedStock) :
    forMarketList fs stocks =
      stocks.filter (fun s => matchOkB fs s && signalOkB fs s) := by
  unfold forMarketList
  rw [applyMatch_eq_filter, applySignal_eq_filter, List.filter_filter]
  refine List.filter_congr ?_
  intro s _
  simp [Bool.and_comm]

lemma foldl_count_if {α : Type} (p : α → Prop) [DecidablePred p] (l : List α) (n : Nat) :
    l.foldl (fun n a => if p a then n + 1 else n) n =
      n + l.countP (fun a => decide (p a)) := by
  induction l generalizing n with
  | nil => simp
  | cons a t ih =>
    by_cases h : p a
    · simp [List.countP_cons, h, ih, Nat.add_assoc, Nat.add_comm 1]
    · simp [List.countP_cons, h, ih]

lemma countP_eq_sum_indicator {α : Type} (p : α → Prop) [DecidablePred p] (l : List α) :
    l.countP (fun a => decide (p a)) = (l.map (fun a => if p a then 1 else 0)).sum := by
  induction l with
  | nil => simp
  | cons a t ih =>
    by_cases h : p a
    · simp [List.countP_cons, h, ih, Nat.add_comm]
    · simp [List.countP_cons, h, ih]

lemma matchCounts_eq_countP (fs : FilterState) (stocks : List CombinedStock)
    (st : MatchStatus) :
    matchCounts fs stocks st =
      stocks.countP (fun s => marketOkB fs s && signalOkB fs s &&
        decide (s.match_status = st)) := by
  unfold matchCounts
  rw [foldl_count_if, forMatchList_eq_filter, Nat.zero_add, List.countP_filter]
  refine List.countP_congr ?_
  intro s _
  constructor
  · intro h
    simp only [Bool.and_eq_true] at h ⊢
    exact ⟨⟨h.2.1, h.2.2⟩, h.1⟩
  · intro h
    simp only [Bool.and_eq_true] at h ⊢
    exact ⟨h.2, h.1.1, h.1.2⟩

lemma signalCounts_foldl_step (l : List CombinedStock) (sig : SignalType) (n : Nat) :
    l.foldl
      (fun n s =>
        let n1 := if s.vision_signal = some sig then n + 1 else n
        if s.api_signal = some sig then n1 + 1 else n1) n =
      n + (l.map (fun s => signalOcc s sig)).sum := by
  induction l generalizing n with
  | nil => simp
  | cons s t ih =>
    simp only [List.foldl_cons, List.map_cons, List.sum_cons, ih, signalOcc]
    by_cases hv : s.vision_signal = some sig <;>
      by_cases ha : s.api_signal = some sig <;>
        simp [hv, ha] <;> omega

lemma signalCounts_eq_sum (fs : FilterState) (stocks : List CombinedStock)
    (sig : SignalType) :
    signalCounts fs stocks sig =
      ((forSignalList fs stocks).map (fun s => signalOcc s sig)).sum := by
  unfold signalCounts
  rw [signalCounts_foldl_step, Nat.zero_add]



lemma rankLe_refl (a : Option Nat) : rankLe a a = true := by
  cases a <;> simp [rankLe]

lemma rankLe_total (a b : Option Nat) : rankLe a b = true ∨ rankLe b a = true := by
  cases a with
  | none => cases b <;> simp [rankLe]
  | some x =>
    cases b with
    | none => simp [rankLe]
    | some y =>
      rcases Nat.le_total x y with h | h
      · exact Or.inl (by simp [rankLe, h])
      · exact Or.inr (by simp [rankLe, h])

lemma rankLe_trans {a b c : Option Nat} (h1 : rankLe a b = true)
    (h2 : rankLe b c = true) : rankLe a c = true := by
  cases a <;> cases b <;> cases c <;> simp_all [rankLe]
  omega

lemma sortInsert_perm (x : CombinedStock) (l : List CombinedStock) :
    List.Perm (sortInsert x l) (x :: l) := by
  induction l with
  | nil => simp [sortInsert]
  | cons y ys ih =>
    by_cases h : rankLe x.volume_rank y.volume_rank
    · simp [sortInsert, h]
    · simp only [sortInsert, h, Bool.false_eq_true, if_false]
      exact (ih.cons y).trans (List.Perm.swap x y ys)

lemma sortByRank_perm (l : List CombinedStock) : List.Perm (sortByRank l) l := by
  induction l with
  | nil => simp [sortByRank]
  | cons x xs ih =>
    exact (sortInsert_perm x (sortByRank xs)).trans (ih.cons x)

lemma sortInsert_pairwise (x : CombinedStock) (l : List CombinedStock)
    (hl : l.Pairwise (fun a b => rankLe a.volume_rank b.volume_rank = true)) :
    (sortInsert x l).Pairwise (fun a b => rankLe a.volume_rank b.volume_rank = true) := by
  induction l with
  | nil => simp [sortInsert]
  | cons y ys ih =>
    rcases List.pairwise_cons.mp hl with ⟨hy, hys⟩
    by_cases h : rankLe x.volume_rank y.volume_rank
    · simp only [sortInsert, h, if_true]
      refine List.pairwise_cons.mpr ⟨?_, hl⟩
      intro z hz
      rcases List.mem_cons.mp hz with rfl | hz
      · exact h
      · exact rankLe_trans h (hy z hz)
    · simp only [sortInsert, h, Bool.false_eq_true, if_false]
      refine List.pairwise_cons.mpr ⟨?_, ih hys⟩
      intro z hz
      have hz' : z = x ∨ z ∈ ys := by
        have := (sortInsert_perm x ys).mem_iff.mp hz
        simpa using this
      rcases hz' with rfl | hz'
      · rcases rankLe_total z.volume_rank y.volume_rank with h1 | h1
        · exact absurd h1 h
        · exact h1
      · exact hy z hz'

lemma sortByRank_pairwise (l : List CombinedStock) :
    (sortByRank l).Pairwise (fun a b => rankLe a.volume_rank b.volume_rank = true) := by
  induction l with
  | nil => simp [sortByRank]
  | cons x xs ih => exact sortInsert_pairwise x (sortByRank xs) ih

lemma sortInsert_filter_key (x : CombinedStock) (l : List CombinedStock)
    (k : Option Nat) :
    (sortInsert x l).filter (fun s => decide (s.volume_rank = k)) =
      if x.volume_rank = k then x :: l.filter (fun s => decide (s.volume_rank = k))
      else l.filter (fun s => decide (s.volume_rank = k)) := by
  induction l with
  | nil =>
    by_cases hx : x.volume_rank = k <;> simp [sortInsert, hx]
  | cons y ys ih =>
    by_cases h : rankLe x.volume_rank y.volume_rank
    · simp only [sortInsert, if_pos h]
      by_cases hx : x.volume_rank = k <;> simp [List.filter_cons, hx]
    · simp only [sortInsert, h, Bool.false_eq_true, if_false]
      by_cases hx : x.volume_rank = k
      · have hy : ¬ y.volume_rank = k := by
          intro hyk
          exact h (hx ▸ hyk ▸ rankLe_refl k)
        simp [List.filter_cons, hx, hy, ih]
      · by_cases hy : y.volume_rank = k <;> simp [List.filter_cons, hx, hy, ih]

lemma sortByRank_filter_key (l : List CombinedStock) (k : Option Nat) :
    (sortByRank l).filter (fun s => decide (s.volume_rank = k)) =
      l.filter (fun s => decide (s.volume_rank = k)) := by
  induction l with
  | nil => simp [sortByRank]
  | cons x xs ih =>
    by_cases hx : x.volume_rank = k <;>
      simp [sortByRank, sortInsert_filter_key, hx, ih, List.filter_cons]

lemma marketOkB_iff (fs : FilterState) (s : CombinedStock) :
    marketOkB fs s = true ↔ marketOk fs s := by
  unfold marketOkB marketOk marketPred
  by_cases h : fs.market = .all <;> simp [h]

lemma matchOkB_iff (fs : FilterState) (s : CombinedStock) :
    matchOkB fs s = true ↔ matchOk fs s := by
  unfold matchOkB matchOk hasMatch
  by_cases h : fs.matchFilters = []
  · simp [h]
  · simp [h, List.isEmpty_iff]

lemma signalOkB_iff (fs : FilterState) (s : CombinedStock) :
    signalOkB fs s = true ↔ signalOk fs s := by
  unfold signalOkB signalOk hasSignal
  by_cases h : fs.signalFilters = []
  · simp [h]
  · cases hv : s.vision_signal <;> cases ha : s.api_signal <;>
      simp [h, List.isEmpty_iff, hv, ha]

lemma mapSet_mem {α : Type} {k : String} {v : α} {m : List (String × α)}
    {p : String × α} (hp : p ∈ mapSet k v m) : p = (k, v) ∨ p ∈ m := by
  induction m with
  | nil => simpa [mapSet] using hp
  | cons q rest ih =>
    by_cases hk : q.1 = k
    · rcases q with ⟨k', v'⟩
      simp only [mapSet, if_pos hk] at hp
      rcases List.mem_cons.mp hp with rfl | hp
      · exact Or.inl (by simp at hk; simp [hk])
      · exact Or.inr (List.mem_cons_of_mem _ hp)
    · rcases q with ⟨k', v'⟩
      simp only [mapSet, if_neg hk] at hp
      rcases List.mem_cons.mp hp with rfl | hp
      · exact Or.inr (List.mem_cons_self _ _)
      · rcases ih hp with h | h
        · exact Or.inl h
        · exact Or.inr (List.mem_cons_of_mem _ h)

lemma mapSet_keys {α : Type} (k : String) (v : α) (m : List (String × α)) :
    (mapSet k v m).map Prod.fst =
      if k ∈ m.map Prod.fst then m.map Prod.fst else m.map Prod.fst ++ [k] := by
  induction m with
  | nil => simp [mapSet]
  | cons q rest ih =>
    rcases q with ⟨k', v'⟩
    by_cases hk : k' = k
    · simp [mapSet, hk]
    · have : ¬ k = k' := fun h => hk h.symm
      simp only [mapSet, if_neg hk, List.map_cons]
      by_cases hm : k ∈ rest.map Prod.fst <;> simp [ih, hm, this]

lemma mapSet_keys_nodup {α : Type} {k : String} {v : α} {m : List (String × α)}
    (h : (m.map Prod.fst).Nodup) : ((mapSet k v m).map Prod.fst).Nodup := by
  rw [mapSet_keys]
  by_cases hm : k ∈ m.map Prod.fst
  · simpa [hm] using h
  · simpa [hm] using List.Nodup.append h (List.nodup_singleton k)
      (by simpa [List.disjoint_singleton] using hm)

lemma mapSet_keys_subset {α : Type} {k c : String} {v : α} {m : List (String × α)}
    (h : c ∈ m.map Prod.fst) : c ∈ (mapSet k v m).map Prod.fst := by
  rw [mapSet_keys]
  by_cases hm : k ∈ m.map Prod.fst <;> simp [hm, h]

lemma mapSet_key_mem {α : Type} (k : String) (v : α) (m : List (String × α)) :
    k ∈ (mapSet k v m).map Prod.fst := by
  rw [mapSet_keys]
  by_cases hm : k ∈ m.map Prod.fst <;> simp [hm]

lemma mapGet_mem {α : Type} {k : String} {m : List (String × α)} {v : α}
    (h : mapGet k m = some v) : (k, v) ∈ m := by
  induction m with
  | nil => simp [mapGet] at h
  | cons q rest ih =>
    rcases q with ⟨k', v'⟩
    by_cases hk : k' = k
    · simp only [mapGet, if_pos hk] at h
      subst hk
      obtain rfl : v' = v := by injection h
      exact List.mem_cons_self _ _
    · simp only [mapGet, if_neg hk] at h
      exact List.mem_cons_of_mem _ (ih h)

lemma mapGet_none {α : Type} {k : String} {m : List (String × α)}
    (h : mapGet k m = none) : k ∉ m.map Prod.fst := by
  induction m with
  | nil => simp
  | cons q rest ih =>
    rcases q with ⟨k', v'⟩
    by_cases hk : k' = k
    · simp [mapGet, hk] at h
    · simp only [mapGet, if_neg hk] at h
      simp only [List.map_cons, List.mem_cons]
      rintro (h1 | h1)
      · exact hk h1.symm
      · exact ih h h1

lemma marketRule_ne_unknown (code : String) : marketRule code ≠ Market.UNKNOWN := by
  unfold marketRule
  split <;> simp

lemma mem_foldl_mapSet {α β : Type} (f : β → String) (g : β → α) (l : List β)
    (m : List (String × α)) (p : String × α)
    (hp : p ∈ l.foldl (fun acc b => mapSet (f b) (g b) acc) m) :
    p ∈ m ∨ ∃ b, b ∈ l ∧ p = (f b, g b) := by
  induction l generalizing m with
  | nil => exact Or.inl hp
  | cons b t ih =>
    simp only [List.foldl_cons] at hp
    rcases ih _ hp with h | ⟨b', hb', rfl⟩
    · rcases mapSet_mem h with rfl | h
      · exact Or.inr ⟨b, List.mem_cons_self _ _, rfl⟩
      · exact Or.inl h
    · exact Or.inr ⟨b', List.mem_cons_of_mem _ hb', rfl⟩

lemma keys_foldl_mapSet_mono {α β : Type} (f : β → String) (g : β → α)
    (l : List β) (m : List (String × α)) {c : String}
    (hc : c ∈ m.map Prod.fst) :
    c ∈ (l.foldl (fun acc b => mapSet (f b) (g b) acc) m).map Prod.fst := by
  induction l generalizing m with
  | nil => exact hc
  | cons b t ih => exact ih _ (mapSet_keys_subset hc)

lemma keys_foldl_mapSet_cover {α β : Type} (f : β → String) (g : β → α)
    (l : List β) (m : List (String × α)) {b : β} (hb : b ∈ l) :
    f b ∈ (l.foldl (fun acc b => mapSet (f b) (g b) acc) m).map Prod.fst := by
  induction l generalizing m with
  | nil => cases hb
  | cons b' t ih =>
    rcases List.mem_cons.mp hb with rfl | hb
    · exact keys_foldl_mapSet_mono f g t _ (mapSet_key_mem (f b) (g b) m)
    · exact ih _ hb

lemma keys_foldl_mapSet_nodup {α β : Type} (f : β → String) (g : β → α)
    (l : List β) (m : List (String × α)) (hm : (m.map Prod.fst).Nodup) :
    ((l.foldl (fun acc b => mapSet (f b) (g b) acc) m).map Prod.fst).Nodup := by
  induction l generalizing m with
  | nil => exact hm
  | cons b t ih => exact ih _ (mapSet_keys_nodup hm)

/-- The invariant the API fold of `combinedStocks` maintains for every map
entry: the stored record's code is its key, and a key that came from the
vision list keeps the vision market heuristic. -/
def entryOk (visionResults : List StockResult) (p : String × CombinedStockV1) : Prop :=
  p.2.code = p.1 ∧
    (p.1 ∈ visionResults.map (fun s => s.code) → p.2.market = marketRule p.1)

lemma visionFold_entryOk (visionResults : List StockResult)
    (p : String × CombinedStockV1)
    (hp : p ∈ visionResults.foldl (fun m s => mapSet s.code (visionEntry s) m) []) :
    entryOk visionResults p := by
  rcases mem_foldl_mapSet (fun s => s.code) visionEntry visionResults [] p hp with
    h | ⟨s, hs, rfl⟩
  · cases h
  · exact ⟨rfl, fun _ => rfl⟩

lemma addKisStock_entryOk (visionResults : List StockResult)
    (amap : List (String × KISAnalysisResult)) (stock : KISStockData)
    (m : List (String × CombinedStockV1))
    (hOk : ∀ p ∈ m, entryOk visionResults p)
    (hCover : ∀ c ∈ visionResults.map (fun s => s.code), c ∈ m.map Prod.fst) :
    ∀ p ∈ addKisStock amap m stock, entryOk visionResults p := by
  intro p hp
  unfold addKisStock at hp
  cases hget : mapGet stock.code m with
  | some existing =>
    rw [hget] at hp
    rcases mapSet_mem hp with rfl | h
    · have hex := hOk _ (mapGet_mem hget)
      exact ⟨hex.1, fun hc => hex.2 hc⟩
    · exact hOk _ h
  | none =>
    rw [hget] at hp
    rcases mapSet_mem hp with rfl | h
    · refine ⟨rfl, fun hc => ?_⟩
      exact absurd (hCover _ hc) (mapGet_none hget)
    · exact hOk _ h

lemma addKisStock_keys_subset (amap : List (String × KISAnalysisResult))
    (stock : KISStockData) (m : List (String × CombinedStockV1)) {c : String}
    (hc : c ∈ m.map Prod.fst) :
    c ∈ (addKisStock amap m stock).map Prod.fst := by
  unfold addKisStock
  cases hget : mapGet stock.code m <;> exact mapSet_keys_subset hc

lemma addKisStock_keys_nodup (amap : List (String × KISAnalysisResult))
    (stock : KISStockData) (m : List (String × CombinedStockV1))
    (hm : (m.map Prod.fst).Nodup) :
    ((addKisStock amap m stock).map Prod.fst).Nodup := by
  unfold addKisStock
  cases hget : mapGet stock.code m <;> exact mapSet_keys_nodup hm

lemma kisFold_entryOk (visionResults : List StockResult)
    (amap : List (String × KISAnalysisResult)) (kisStocks : List KISStockData)
    (m : List (String × CombinedStockV1))
    (hOk : ∀ p ∈ m, entryOk visionResults p)
    (hCover : ∀ c ∈ visionResults.map (fun s => s.code), c ∈ m.map Prod.fst)
    (hNodup : (m.map Prod.fst).Nodup) :
    (∀ p ∈ kisStocks.foldl (addKisStock amap) m, entryOk visionResults p) ∧
      ((kisStocks.foldl (addKisStock amap) m).map Prod.fst).Nodup := by
  induction kisStocks generalizing m with
  | nil => exact ⟨hOk, hNodup⟩
  | cons stock rest ih =>
    simp only [List.foldl_cons]
    exact ih _ (addKisStock_entryOk _ _ _ _ hOk hCover)
      (fun c hc => addKisStock_keys_subset _ _ _ (hCover c hc))
      (addKisStock_keys_nodup _ _ _ hNodup)

lemma combinedStocks_entries (visionResults : List StockResult)
    (kisStocks : List KISStockData) (kisAnalysis : List KISAnalysisResult) :
    ∀ s ∈ combinedStocks visionResults kisStocks kisAnalysis,
      ∃ p, entryOk visionResults p ∧ p.2 = s := by
  intro s hs
  unfold combinedStocks at hs
  rcases List.mem_map.mp hs with ⟨p, hp, rfl⟩
  have base := kisFold_entryOk visionResults
    (kisAnalysis.foldl (fun m r => mapSet r.code r m) []) kisStocks
    (visionResults.foldl (fun m s => mapSet s.code (visionEntry s) m) [])
    (fun q hq => visionFold_entryOk visionResults q hq)
    (fun c hc => by
      rcases List.mem_map.mp hc with ⟨v, hv, rfl⟩
      exact keys_foldl_mapSet_cover (fun s => s.code) visionEntry visionResults [] hv)
    (keys_foldl_mapSet_nodup (fun s => s.code) visionEntry visionResults [] (by simp))
  exact ⟨p, base.1 p hp, rfl⟩

lemma sum_map_filter_if (p : CombinedStock → Bool) (f : CombinedStock → Nat)
    (l : List CombinedStock) :
    ((l.filter p).map f).sum = (l.map (fun a => if p a then f a else 0)).sum := by
  induction l with
  | nil => simp
  | cons a t ih =>
    by_cases h : p a <;> simp [List.filter_cons, h, ih]

lemma sum_map_add_nat {α : Type} (f g : α → Nat) (l : List α) :
    (l.map (fun a => f a + g a)).sum = (l.map f).sum + (l.map g).sum := by
  induction l with
  | nil => simp
  | cons a t ih => simp [ih]; omega

lemma foldl_add_confidence (l : List CombinedStockV1) (a : ℚ) :
    l.foldl (fun sum s => sum + s.confidenceScore) a =
      a + (l.map (fun s => s.confidenceScore)).sum := by
  induction l generalizing a with
  | nil => simp
  | cons s t ih => simp [ih, add_assoc]

/-- All three facet predicates in program order, the filter chain of
`filteredStocks` as one test. -/
def passesAllB (fs : FilterState) (s : CombinedStock) : Bool :=
  marketOkB fs s && matchOkB fs s && signalOkB fs s

lemma filteredStocks_eq_sort_filter (fs : FilterState) (stocks : List CombinedStock) :
    filteredStocks fs stocks = sortByRank (stocks.filter (fun s => passesAllB fs s)) := by
  unfold filteredStocks passesAllB
  rw [applyMarket_eq_filter, applyMatch_eq_filter, applySignal_eq_filter,
    List.filter_filter, List.filter_filter]
  congr 1
  refine List.filter_congr ?_
  intro s _
  cases hm : marketOkB fs s <;> cases ht : matchOkB fs s <;>
    cases hg : signalOkB fs s <;> simp [hm, ht, hg]

lemma rankLe_none_left {b : Option Nat} (h : rankLe none b = true) : b = none := by
  cases b with
  | none => rfl
  | some y => simp [rankLe] at h

/-- C1 counterexample: with no record from either source the code returns
`mismatch`, not the `no_data` the claim names. -/
theorem claim_C1_counterexample :
    calculateMatchStatus none none = MatchStatus.mismatch ∧
      MatchStatus.mismatch ≠ MatchStatus.noData := by
  decide

/-- C1 (amended): `calculateMatchStatus` follows the ordered decision list
with the first rule amended to `mismatch` when neither source has a record
(only vision → vision-only, only API → api-only, both present → match /
partial / mismatch by ordinal distance 0 / 1 / ≥ 2), and it never returns
`no_data`; consequently `mismatch` arises either with both sources present
or with both absent. -/
theorem claim_C1_decision_list :
    ∀ visionSignal apiSignal : Option SignalType,
      calculateMatchStatus visionSignal apiSignal =
          amendedDecisionList visionSignal apiSignal ∧
        calculateMatchStatus visionSignal apiSignal ≠ MatchStatus.noData := by
  decide

/-- C2: `calculateConfidence` is the fixed mapping the claim states, but the
merge assigns an API-only record with no analysis signal the status
`api-only` together with confidence `0`, diverging from that mapping (and
from the page's own legend "single source = 50%"): evaluated at a KIS list
with one stock and no analysis results. -/
theorem claim_C2_confidence_divergence :
    calculateConfidence MatchStatus.exactMatch = 1 ∧
    calculateConfidence MatchStatus.partialMatch = 7/10 ∧
    calculateConfidence MatchStatus.visionOnly = 1/2 ∧
    calculateConfidence MatchStatus.apiOnly = 1/2 ∧
    calculateConfidence MatchStatus.mismatch = 3/10 ∧
    calculateConfidence MatchStatus.noData = 0 ∧
    combinedStocks [] [kisSample] [] = [apiOnlyEntry kisSample none] ∧
    (apiOnlyEntry kisSample none).matchStatus = MatchStatus.apiOnly ∧
    (apiOnlyEntry kisSample none).confidenceScore = 0 ∧
    (apiOnlyEntry kisSample none).confidenceScore ≠
      calculateConfidence MatchStatus.apiOnly := by
  refine ⟨rfl, rfl, rfl, rfl, rfl, rfl, rfl, rfl, rfl, ?_⟩
  simp only [apiOnlyEntry, calculateConfidence, Option.map_none, Option.isSome_none,
    Bool.false_eq_true, if_false]
  norm_num

/-- A stock whose two sources both say `buy`. -/
def stockBothBuy : CombinedStock :=
  { code := "000100", name := "StockA", market := .KOSPI,
    vision_signal := some .buy, api_signal := some .buy,
    match_status := .exactMatch, confidence := 1, volume_rank := some 1 }

/-- A stock with vision `buy` and API `sell`. -/
def stockMixed : CombinedStock :=
  { code := "000200", name := "StockB", market := .KOSDAQ,
    vision_signal := some .buy, api_signal := some .sell,
    match_status := .mismatch, confidence := 3/10, volume_rank := some 2 }

/-- C3 counterexample: with no filters active, the displayed count of the
signal option `buy` over the one-stock collection whose vision and API
signals are both `buy` is 2, while the number of stocks satisfying that
option is 1. -/
theorem claim_C3_counterexample :
    signalCounts emptyFilter [stockBothBuy] SignalType.buy = 2 ∧
      [stockBothBuy].countP (fun s => decide (s.vision_signal = some SignalType.buy ∨
        s.api_signal = some SignalType.buy)) = 1 ∧
      (2 : Nat) ≠ 1 := by
  decide

/-- C3 (amended): every facet's displayed counts are recomputed from the full
collection with only the other two facets' predicates applied (a symmetric
conjunction, hence independent of selection order, and never the facet's own
selection); for the market and match-status facets the count is the number of
such stocks satisfying the option, while for the signal facet it is the
number of signal occurrences equal to the option among those stocks. -/
theorem claim_C3_marginal_counts (fs : FilterState) (stocks : List CombinedStock) :
    (∀ st : MatchStatus,
      matchCounts fs stocks st =
        stocks.countP (fun s => marketOkB fs s && signalOkB fs s &&
          decide (s.match_status = st))) ∧
    marketCountsAll fs stocks =
      stocks.countP (fun s => matchOkB fs s && signalOkB fs s) ∧
    marketCountsKospi fs stocks =
      stocks.countP (fun s => matchOkB fs s && signalOkB fs s &&
        decide (s.market = Market.KOSPI)) ∧
    marketCountsKosdaq fs stocks =
      stocks.countP (fun s => matchOkB fs s && signalOkB fs s &&
        decide (s.market = Market.KOSDAQ)) ∧
    (∀ sig : SignalType,
      signalCounts fs stocks sig =
        (stocks.map (fun s =>
          if marketOkB fs s && matchOkB fs s then signalOcc s sig else 0)).sum) := by
  refine ⟨matchCounts_eq_countP fs stocks, ?_, ?_, ?_, ?_⟩
  · rw [marketCountsAll, forMarketList_eq_filter, List.countP_eq_length_filter]
  · rw [marketCountsKospi, forMarketList_eq_filter, List.countP_eq_length_filter,
      List.filter_filter]
    congr 1
    refine List.filter_congr ?_
    intro s _
    cases ht : matchOkB fs s <;> cases hg : signalOkB fs s <;> simp [ht, hg]
  · rw [marketCountsKosdaq, forMarketList_eq_filter, List.countP_eq_length_filter,
      List.filter_filter]
    congr 1
    refine List.filter_congr ?_
    intro s _
    cases ht : matchOkB fs s <;> cases hg : signalOkB fs s <;> simp [ht, hg]
  · intro sig
    rw [signalCounts_eq_sum, forSignalList_eq_filter, sum_map_filter_if]

/-- C4: the per-signal-level count over its base list splits as the number of
stocks whose vision signal is the level plus the number whose API signal is
the level, so each stock contributes once per source signal equal to the
level; concretely, a both-`buy` stock contributes 2 to `buy`, and a
`buy`/`sell` stock contributes 1 to `buy` and 1 to `sell`. -/
theorem claim_C4_signal_occurrences (fs : FilterState) (stocks : List CombinedStock)
    (sig : SignalType) :
    (signalCounts fs stocks sig =
      (forSignalList fs stocks).countP (fun s => decide (s.vision_signal = some sig)) +
        (forSignalList fs stocks).countP (fun s => decide (s.api_signal = some sig))) ∧
    signalCounts emptyFilter [stockBothBuy] SignalType.buy = 2 ∧
    signalCounts emptyFilter [stockMixed] SignalType.buy = 1 ∧
    signalCounts emptyFilter [stockMixed] SignalType.sell = 1 := by
  refine ⟨?_, by decide, by decide, by decide⟩
  rw [signalCounts_eq_sum]
  unfold signalOcc
  rw [sum_map_add_nat, countP_eq_sum_indicator, countP_eq_sum_indicator]

/-- C5: the filtered result list is pairwise ordered by the volume-rank order
(ascending ranks with missing ranks greatest), a stock with no rank is never
followed by a ranked one, and for every rank value the stocks carrying it
appear in exactly the order the filtered input collection had them (stable
sort); the output is a pure function of the inputs. -/
theorem claim_C5_sort_order (fs : FilterState) (stocks : List CombinedStock) :
    (filteredStocks fs stocks).Pairwise
        (fun a b => rankLe a.volume_rank b.volume_rank = true) ∧
      (filteredStocks fs stocks).Pairwise
        (fun a b => a.volume_rank = none → b.volume_rank = none) ∧
      ∀ k : Option Nat,
        (filteredStocks fs stocks).filter (fun s => decide (s.volume_rank = k)) =
          (stocks.filter (fun s => passesAllB fs s)).filter
            (fun s => decide (s.volume_rank = k)) := by
  have hpair : (filteredStocks fs stocks).Pairwise
      (fun a b => rankLe a.volume_rank b.volume_rank = true) := by
    rw [filteredStocks_eq_sort_filter]
    exact sortByRank_pairwise _
  refine ⟨hpair, ?_, ?_⟩
  · refine hpair.imp ?_
    intro a b hab hnone
    rw [hnone] at hab
    exact rankLe_none_left hab
  · intro k
    rw [filteredStocks_eq_sort_filter, sortByRank_filter_key]

/-- C6: a stock is in the filtered result exactly when it is in the input
collection and satisfies all three facet predicates: market equal to the
selection unless `all`, match status in the selected set or the set empty,
and vision or API signal in the selected set or the set empty. -/
theorem claim_C6_filter_conjunction (fs : FilterState) (stocks : List CombinedStock)
    (s : CombinedStock) :
    s ∈ filteredStocks fs stocks ↔
      s ∈ stocks ∧ marketOk fs s ∧ matchOk fs s ∧ signalOk fs s := by
  rw [filteredStocks_eq_sort_filter]
  rw [(sortByRank_perm _).mem_iff, List.mem_filter]
  unfold passesAllB
  rw [Bool.and_eq_true, Bool.and_eq_true]
  rw [marketOkB_iff, matchOkB_iff, signalOkB_iff]
  tauto

/-- C7: with no filters active the six per-match-status counts sum to the
size of the collection: every stock carries exactly one status, so the
statuses partition the universe. -/
theorem claim_C7_status_partition (stocks : List CombinedStock) :
    matchCounts emptyFilter stocks MatchStatus.exactMatch +
      matchCounts emptyFilter stocks MatchStatus.partialMatch +
      matchCounts emptyFilter stocks MatchStatus.mismatch +
      matchCounts emptyFilter stocks MatchStatus.visionOnly +
      matchCounts emptyFilter stocks MatchStatus.apiOnly +
      matchCounts emptyFilter stocks MatchStatus.noData = stocks.length := by
  have h : ∀ st, matchCounts emptyFilter stocks st =
      stocks.countP (fun s => decide (s.match_status = st)) := by
    intro st
    rw [matchCounts_eq_countP]
    refine List.countP_congr ?_
    intro s _
    simp [marketOkB, signalOkB, emptyFilter]
  simp only [h]
  clear h
  induction stocks with
  | nil => simp
  | cons s t ih =>
    simp only [List.countP_cons, List.length_cons]
    cases hs : s.match_status <;> simp [hs] <;> omega

/-- C8: for a non-empty collection the aggregated `avgConfidence` is the sum
of the confidence values divided by the number of stocks, and for the empty
collection it is `0` (the guard prevents the division). -/
theorem claim_C8_avg_confidence (stocks : List CombinedStockV1) :
    (stocks ≠ [] →
      (statsV1 stocks).avgConfidence =
        (stocks.map (fun s => s.confidenceScore)).sum / (stocks.length : ℚ)) ∧
      (statsV1 ([] : List CombinedStockV1)).avgConfidence = 0 := by
  constructor
  · intro h
    have hlen : 0 < stocks.length := List.length_pos.mpr h
    simp only [statsV1, if_pos hlen, foldl_add_confidence, zero_add]
  · simp [statsV1]

/-- C9: the merged collection never carries two records with the same code:
an API record whose code already has a vision entry replaces that entry's
fields in place, so the map's keys, and with them the output codes, stay
pairwise distinct for all inputs. -/
theorem claim_C9_distinct_codes (visionResults : List StockResult)
    (kisStocks : List KISStockData) (kisAnalysis : List KISAnalysisResult) :
    (combinedStocks visionResults kisStocks kisAnalysis).Pairwise
      (fun a b => a.code ≠ b.code) := by
  unfold combinedStocks
  have base := kisFold_entryOk visionResults
    (kisAnalysis.foldl (fun m r => mapSet r.code r m) []) kisStocks
    (visionResults.foldl (fun m s => mapSet s.code (visionEntry s) m) [])
    (fun q hq => visionFold_entryOk visionResults q hq)
    (fun c hc => by
      rcases List.mem_map.mp hc with ⟨v, hv, rfl⟩
      exact keys_foldl_mapSet_cover (fun s => s.code) visionEntry visionResults [] hv)
    (keys_foldl_mapSet_nodup (fun s => s.code) visionEntry visionResults [] (by simp))
  have hkeys : (kisStocks.foldl (addKisStock
      (kisAnalysis.foldl (fun m r => mapSet r.code r m) []))
      (visionResults.foldl (fun m s => mapSet s.code (visionEntry s) m) [])).Pairwise
        (fun p q => p.1 ≠ q.1) := by
    have := base.2
    rw [List.Nodup, List.pairwise_map] at this
    exact this
  rw [List.pairwise_map]
  refine List.Pairwise.imp_of_mem ?_ hkeys
  intro p q hp hq hne
  have hpc := (base.1 p hp).1
  have hqc := (base.1 q hq).1
  rw [hpc, hqc]
  exact hne

/-- C10: every merged record whose code appears in the vision source carries
the market the code heuristic assigns (KOSDAQ exactly when the code starts
with '3' or '4', KOSPI otherwise) and is never `UNKNOWN`. -/
theorem claim_C10_vision_market (visionResults : List StockResult)
    (kisStocks : List KISStockData) (kisAnalysis : List KISAnalysisResult)
    (s : CombinedStockV1)
    (hs : s ∈ combinedStocks visionResults kisStocks kisAnalysis)
    (hcode : ∃ v ∈ visionResults, v.code = s.code) :
    s.market = marketRule s.code ∧ s.market ≠ Market.UNKNOWN := by
  rcases combinedStocks_entries visionResults kisStocks kisAnalysis s hs with
    ⟨p, hOk, rfl⟩
  have hkey : p.1 = p.2.code := hOk.1.symm
  have hmem : p.1 ∈ visionResults.map (fun v => v.code) := by
    rcases hcode with ⟨v, hv, hvc⟩
    rw [hkey, ← hvc]
    exact List.mem_map_of_mem _ hv
  have hmarket := hOk.2 hmem
  rw [hkey] at hmarket
  exact ⟨hmarket, hmarket ▸ marketRule_ne_unknown _⟩

/-- A concrete vision record whose code starts with '3'. -/
def visionSample : StockResult :=
  { code := "300720", name := "HanilCement", signal := .buy, reason := "chart" }

/-- C10 witness: the theorem applied to the one-stock vision list. -/
theorem claim_C10_witness :
    (visionEntry visionSample).market = marketRule (visionEntry visionSample).code ∧
      (visionEntry visionSample).market ≠ Market.UNKNOWN := by
  have hout : combinedStocks [visionSample] [] [] = [visionEntry visionSample] := rfl
  exact claim_C10_vision_market [visionSample] [] [] (visionEntry visionSample)
    (hout ▸ List.mem_singleton.mpr rfl)
    ⟨visionSample, List.mem_singleton.mpr rfl, rfl⟩
